import Mathlib

/-!
Shallow embedding of `quickwit-proto/src/indexing/mod.rs`: the indexing
error taxonomy, the pipeline/task identity model, `CpuCapacity` with its
textual and structured serialization, and `PipelineMetrics`.
-/

namespace Quickwit

/-- Node identifier (a plain string in the source). -/
abbrev NodeId := String

/-- Source identifier (`SourceId` is a `String` alias in `quickwit-proto`). -/
abbrev SourceId := String

/-- Modelled from the spec: `IndexUid` is defined in `quickwit-proto/src/types`,
which is not part of the sources here; the spec treats it as the index
identifier, displayed as itself. We model it as a string. -/
abbrev IndexUid := String

/-- Modelled from the spec: `PipelineUid` (defined outside these sources) is an
opaque pipeline instantiation identifier; we model it as a natural number. -/
abbrev PipelineUid := Nat

/-- Modelled from the spec: the coarse-grained cross-service error code type
(`ServiceErrorCode`, defined outside these sources). The spec names the codes
Internal, Timeout, Unavailable and Unimplemented; we add a few generic codes a
metastore error may carry. -/
inductive ServiceErrorCode where
  | badRequest
  | internal
  | notFound
  | timeout
  | unavailable
  | unimplemented
deriving DecidableEq, Repr

/-- Modelled from the spec: a metastore error (defined outside these sources)
carries its own classification code, which wrapping must preserve. -/
structure MetastoreError where
  message : String
  code : ServiceErrorCode
deriving DecidableEq, Repr

/-- Modelled from the spec: the metastore error reports its own code. -/
def MetastoreError.error_code (e : MetastoreError) : ServiceErrorCode := e.code

/-- `IndexingError` from `indexing/mod.rs`: Internal, Metastore (wrapping a
metastore error), Timeout, Unavailable, Unimplemented, each carrying a
message (the Metastore variant carries the wrapped error). -/
inductive IndexingError where
  | internal (msg : String)
  | metastore (e : MetastoreError)
  | timeout (msg : String)
  | unavailable (msg : String)
  | unimplemented (msg : String)
deriving DecidableEq, Repr

/-- `ServiceError::error_code` for `IndexingError`: each variant maps to its
code; the Metastore variant delegates to the wrapped error's own code. -/
def IndexingError.error_code : IndexingError → ServiceErrorCode
  | .internal _ => .internal
  | .metastore e => e.error_code
  | .timeout _ => .timeout
  | .unavailable _ => .unavailable
  | .unimplemented _ => .unimplemented

/-- `GrpcServiceError::new_internal` for `IndexingError`. -/
def IndexingError.new_internal (msg : String) : IndexingError := .internal msg

/-- `GrpcServiceError::new_timeout` for `IndexingError`. -/
def IndexingError.new_timeout (msg : String) : IndexingError := .timeout msg

/-- `GrpcServiceError::new_unavailable` for `IndexingError`. -/
def IndexingError.new_unavailable (msg : String) : IndexingError := .unavailable msg

/-- `GrpcServiceError::new_unimplemented` for `IndexingError`. -/
def IndexingError.new_unimplemented (msg : String) : IndexingError := .unimplemented msg

/-- The messaging-layer outcome type `AskError` (its three variants are named
exhaustively by the `From` impl in `indexing/mod.rs`; the enum itself lives in
`quickwit-actors`): an application-level error reply, a not-delivered outcome,
and a processing-failure outcome. -/
inductive AskError where
  | errorReply (e : IndexingError)
  | messageNotDelivered
  | processMessageError
deriving DecidableEq, Repr

/-- `From(AskError(IndexingError)) for IndexingError` from `indexing/mod.rs`. -/
def IndexingError.from_ask_error : AskError → IndexingError
  | .errorReply e => e
  | .messageNotDelivered =>
      IndexingError.new_unavailable "request could not be delivered to actor"
  | .processMessageError =>
      IndexingError.new_internal "an error occurred while processing the request"

/-- `IndexingPipelineId` from `indexing/mod.rs`: owning node, index, source,
and pipeline instantiation identifier. Equality and hash are the derived,
full-identity ones (all four fields). -/
structure IndexingPipelineId where
  node_id : NodeId
  index_uid : IndexUid
  source_id : SourceId
  pipeline_uid : PipelineUid
deriving DecidableEq, Repr

/-- `Display for IndexingPipelineId`: writes the index uid, a colon, and the
source id; node and instantiation are omitted. -/
def IndexingPipelineId.display (p : IndexingPipelineId) : String :=
  p.index_uid ++ ":" ++ p.source_id

/-- `IndexingTask` (the prost-generated message): index identifier, source
identifier, an optional pipeline instantiation identifier (optional at the
wire level, required by contract), and further task parameters (shard ids),
which stand in for the task-specific configuration. -/
structure IndexingTask where
  index_uid : IndexUid
  source_id : SourceId
  pipeline_uid : Option PipelineUid
  shard_ids : List Nat
deriving DecidableEq, Repr

/-- `Display for IndexingTask`: writes the index uid, a colon, and the
source id, mirroring `IndexingPipelineId`. -/
def IndexingTask.display (t : IndexingTask) : String :=
  t.index_uid ++ ":" ++ t.source_id

/-- `Hash for IndexingTask` from `indexing/mod.rs` feeds exactly the index uid
and then the source id to the hasher; this definition is the sequence of data
fed to the hasher, so two tasks hash identically for every hasher exactly when
these pairs are equal. -/
def IndexingTask.hash_input (t : IndexingTask) : IndexUid × SourceId :=
  (t.index_uid, t.source_id)

/-- Modelled from the spec: equality of `IndexingTask` (the `PartialEq` impl
lives in the generated prost code, which is not among these sources; the spec
states the deliberate identity override) considers only the index identifier
and the source identifier, never the pipeline instantiation identifier or the
other parameters. -/
def IndexingTask.task_eq (a b : IndexingTask) : Bool :=
  a.index_uid == b.index_uid && a.source_id == b.source_id

/-- `IndexingTask::pipeline_uid` from `indexing/mod.rs`: unwraps the optional
field; the absent case is the fail-fast branch (`expect`, a panic with the
message below), embedded as the error case of `Except`. -/
def IndexingTask.get_pipeline_uid (t : IndexingTask) : Except String PipelineUid :=
  match t.pipeline_uid with
  | some p => .ok p
  | none => .error "pipeline_uid should be a required field"

/-- `CpuCapacity` from `indexing/mod.rs`: a wrapped u32 count of milli-CPUs.
The wrapped value is modelled as a natural number; the u32 range enters
through the operations that enforce it (parsing and casts). -/
structure CpuCapacity where
  val : Nat
deriving DecidableEq, Repr

/-- `CpuCapacity::from_cpu_millis`. -/
def CpuCapacity.from_cpu_millis (n : Nat) : CpuCapacity := ⟨n⟩

/-- The `mcpu` helper: builds a `CpuCapacity` from milli-CPUs. -/
def mcpu (n : Nat) : CpuCapacity := CpuCapacity.from_cpu_millis n

/-- `CpuCapacity::cpu_millis`. -/
def CpuCapacity.cpu_millis (c : CpuCapacity) : Nat := c.val

/-- `CpuCapacity::zero`. -/
def CpuCapacity.zero : CpuCapacity := CpuCapacity.from_cpu_millis 0

/-- `CpuCapacity::one_cpu_thread`. -/
def CpuCapacity.one_cpu_thread : CpuCapacity := CpuCapacity.from_cpu_millis 1000

/-- `PIPELINE_FULL_CAPACITY`: one full pipeline is budgeted at 4000 milli-CPUs. -/
def PIPELINE_FULL_CAPACITY : CpuCapacity := CpuCapacity.from_cpu_millis 4000

/-- `Display for CpuCapacity`: the wrapped value followed by the unit suffix m. -/
def CpuCapacity.display (c : CpuCapacity) : String := toString c.val ++ "m"

/-- The derived `Ord` on the single-field struct `CpuCapacity` compares the
wrapped u32 values. -/
def CpuCapacity.cmp (a b : CpuCapacity) : Ordering := compare a.val b.val

/-- Rust `PartialOrd::le` as obtained from the derived `Ord`: true on the
`Less` and `Equal` outcomes of the comparison. -/
def CpuCapacity.le (a b : CpuCapacity) : Bool :=
  match a.cmp b with
  | .gt => false
  | _ => true

/-- Rust `str::strip_suffix` with the character m: when the string ends in m,
the string without that final character, otherwise none. -/
def strip_suffix_m (s : String) : Option String :=
  match s.data.getLast? with
  | some c => if c = 'm' then some (String.mk s.data.dropLast) else none
  | none => none

/-- The optional leading plus sign accepted by Rust integer parsing. -/
def strip_plus (cs : List Char) : List Char :=
  if cs.head? = some '+' then cs.tail else cs

/-- Value of a list of decimal digit characters, most significant first. -/
def digitsVal (cs : List Char) : Nat :=
  cs.foldl (fun acc c => acc * 10 + (c.toNat - 48)) 0

/-- Rust `str::parse` at type u32: an optional leading plus sign, then one or
more decimal digits whose value fits in a u32; everything else (empty input,
a non-digit character, overflow) is a parse error. -/
def parse_u32 (s : String) : Option Nat :=
  let cs := strip_plus s.data
  if cs ≠ [] ∧ cs.all Char.isDigit then
    if digitsVal cs < 2 ^ 32 then some (digitsVal cs) else none
  else none

/-- `FromStr for CpuCapacity` from `indexing/mod.rs`: strip the trailing m
(reporting the missing suffix on failure), then parse the remainder as a u32
(reporting a generic message on failure). -/
def CpuCapacity.from_str (s : String) : Except String CpuCapacity :=
  match strip_suffix_m s with
  | none =>
      .error ("invalid cpu capacity: `" ++ s ++ "`. String format expects a trailing 'm'.")
  | some rest =>
      match parse_u32 rest with
      | none => .error ("invalid cpu capacity: `" ++ s ++ "`.")
      | some n => .ok (CpuCapacity.from_cpu_millis n)

/-- Round a rational to the nearest integer, ties to the even integer: the
integer-granularity core of IEEE round to nearest, ties to even. -/
def rndHalfEven (q : ℚ) : ℤ :=
  if q - ⌊q⌋ < 1/2 then ⌊q⌋
  else if 1/2 < q - ⌊q⌋ then ⌊q⌋ + 1
  else if ⌊q⌋ % 2 = 0 then ⌊q⌋ else ⌊q⌋ + 1

/-- Floor of the base-two logarithm of a positive rational, computed through a
fixed scaling by 2 to the 1100: exact for arguments of at least 2 to the
minus 1100, and small enough below that threshold that the minimum-exponent
clamp of the rounding grid takes over. -/
def ilog2q (q : ℚ) : ℤ := (Nat.log2 (Int.toNat ⌊q * 2 ^ 1100⌋) : ℤ) - 1100

/-- IEEE round to nearest, ties to even, onto the grid of binary floating
point values with significand precision p and minimum (subnormal) exponent
emin, modelled over exact rationals. A result beyond the largest finite value
is returned unclamped and stands for the infinity of the same sign, which the
saturating integer cast downstream treats identically. -/
def roundRat (p : ℕ) (emin : ℤ) (q : ℚ) : ℚ :=
  if q = 0 then 0
  else
    (rndHalfEven (q / 2 ^ max emin (ilog2q |q| - ((p : ℤ) - 1))) : ℚ) *
      2 ^ max emin (ilog2q |q| - ((p : ℤ) - 1))

/-- Rounding to binary32 (f32): 24 significand bits, least exponent -149. -/
def roundF32 (q : ℚ) : ℚ := roundRat 24 (-149) q

/-- Rounding to binary64 (f64): 53 significand bits, least exponent -1074. -/
def roundF64 (q : ℚ) : ℚ := roundRat 53 (-1074) q

/-- Rust `as f32` on a u32: conversion rounds to the nearest f32. -/
def u32_to_f32 (n : ℕ) : ℚ := roundF32 n

/-- f32 multiplication: the exact product, rounded to the nearest f32. -/
def f32_mul (x y : ℚ) : ℚ := roundF32 (x * y)

/-- Rust `as u32` applied to a floating value, with the float modelled as an
exact rational: negative values go to zero, the rest truncate toward zero and
saturate at the u32 maximum. -/
def rust_cast_to_u32 (q : ℚ) : Nat :=
  if q < 0 then 0 else min (Int.toNat ⌊q⌋) (2 ^ 32 - 1)

/-- `Mul(f32) for CpuCapacity` from `indexing/mod.rs`: the wrapped count is
converted to f32 (rounding to nearest), multiplied by the scale in f32
(rounding the product to nearest), and the result is cast back to u32,
truncating toward zero and saturating. -/
def CpuCapacity.mul_f32 (c : CpuCapacity) (scale : ℚ) : CpuCapacity :=
  CpuCapacity.from_cpu_millis (rust_cast_to_u32 (f32_mul (u32_to_f32 c.val) scale))

/-- `CpuCapacityForSerialization` from `indexing/mod.rs`: the untagged serde
shape, either a bare floating-point number of whole CPUs or the string form
with the unit suffix. The f32 payload is modelled as an exact rational. -/
inductive CpuCapacityForSerialization where
  | float (q : ℚ)
  | milliCpuWithUnit (s : String)
deriving DecidableEq, Repr

/-- `TryFrom(CpuCapacityForSerialization) for CpuCapacity`: a bare number (an
f32) is multiplied by 1000.0f32 — an f32 multiplication, rounding the product
to the nearest f32 — and then cast to u32; a string goes through `from_str`. -/
def CpuCapacity.try_from (c : CpuCapacityForSerialization) : Except String CpuCapacity :=
  match c with
  | .float f => .ok (CpuCapacity.from_cpu_millis (rust_cast_to_u32 (f32_mul f 1000)))
  | .milliCpuWithUnit s => CpuCapacity.from_str s

/-- A structured (JSON) scalar value: a number (modelled as an exact rational)
or a string. -/
inductive JsonValue where
  | num (q : ℚ)
  | str (s : String)
deriving DecidableEq, Repr

/-- Whether a structured value is numeric. -/
def JsonValue.is_num : JsonValue → Bool
  | .num _ => true
  | .str _ => false

/-- Serde deserialization of `CpuCapacity` from a structured value. The
number payload carries the exact rational value of the JSON numeric literal:
serde_json parses it to the nearest f64, and the untagged
`CpuCapacityForSerialization` reads that f64 into the Float(f32) variant,
converting to f32 with round to nearest, before `try_from` converts. A JSON
string goes to the unit-suffixed variant. -/
def CpuCapacity.deserialize (j : JsonValue) : Except String CpuCapacity :=
  match j with
  | .num q => CpuCapacity.try_from (.float (roundF32 (roundF64 q)))
  | .str s => CpuCapacity.try_from (.milliCpuWithUnit s)

/-- `From(CpuCapacity) for CpuCapacityForSerialization`: always the canonical
string form, the value followed by the unit suffix m. -/
def CpuCapacity.into_serialization (c : CpuCapacity) : CpuCapacityForSerialization :=
  .milliCpuWithUnit (toString c.val ++ "m")

/-- Serde serialization of `CpuCapacity` into a structured value, through
`into_serialization`. -/
def CpuCapacity.serialize (c : CpuCapacity) : JsonValue :=
  match c.into_serialization with
  | .milliCpuWithUnit s => .str s
  | .float q => .num q

/-- `PipelineMetrics` from `indexing/mod.rs`: consumed CPU and throughput in
MB/s (a u16, modelled as a natural number). -/
structure PipelineMetrics where
  cpu_millis : CpuCapacity
  throughput_mb_per_sec : Nat
deriving DecidableEq, Repr

/-- `Display for PipelineMetrics`: the CPU capacity display, a comma, the
throughput, and the literal MB/s. -/
def PipelineMetrics.display (m : PipelineMetrics) : String :=
  m.cpu_millis.display ++ "," ++ toString m.throughput_mb_per_sec ++ "MB/s"

/-- The derived serde serialization of `PipelineMetrics`: an object with the
two fields in declaration order, each serialized by its own type's
serialization (`CpuCapacity` through its canonical string form, the u16 as a
number). -/
def PipelineMetrics.serialize (m : PipelineMetrics) : List (String × JsonValue) :=
  [("cpu_millis", m.cpu_millis.serialize),
   ("throughput_mb_per_sec", .num m.throughput_mb_per_sec)]

end Quickwit

deriving instance DecidableEq for Except

namespace Quickwit

/-- Stripping the unit suffix from a string that ends in m yields the string
without that final character. -/
theorem strip_suffix_m_concat (cs : List Char) :
    strip_suffix_m (String.mk (cs ++ ['m'])) = some (String.mk cs) := by
  unfold strip_suffix_m
  have hd : (String.mk (cs ++ ['m'])).data = cs ++ ['m'] := rfl
  rw [hd, List.getLast?_concat]
  simp [List.dropLast_concat]

/-- Stripping the unit suffix fails on every string that does not end in m. -/
theorem strip_suffix_m_of_no_m (s : String) (h : s.data.getLast? ≠ some 'm') :
    strip_suffix_m s = none := by
  unfold strip_suffix_m
  cases hl : s.data.getLast? with
  | none => rfl
  | some c =>
      show (if c = 'm' then some (String.mk s.data.dropLast) else none) = none
      rw [if_neg]
      intro hc
      exact h (by rw [hl, hc])

/-- An all-digit character list has no leading plus sign to strip. -/
theorem strip_plus_of_digits (cs : List Char) (h2 : cs.all Char.isDigit) :
    strip_plus cs = cs := by
  unfold strip_plus
  cases cs with
  | nil => simp
  | cons c t =>
      rw [if_neg]
      intro hc
      have hcp : c = '+' := by simpa using hc
      have hcd : c.isDigit := by
        simp only [List.all_cons, Bool.and_eq_true] at h2
        exact h2.1
      rw [hcp] at hcd
      exact absurd hcd (by decide)

/-- u32 parsing succeeds on a nonempty all-digit string whose value is in
range, returning that value. -/
theorem parse_u32_digits (cs : List Char) (h1 : cs ≠ []) (h2 : cs.all Char.isDigit)
    (h3 : digitsVal cs < 2 ^ 32) : parse_u32 (String.mk cs) = some (digitsVal cs) := by
  unfold parse_u32
  have hd : (String.mk cs).data = cs := rfl
  rw [hd, strip_plus_of_digits cs h2, if_pos ⟨h1, h2⟩, if_pos h3]

/-- u32 parsing fails whenever the input (after the optional sign) is empty or
contains a non-digit character. -/
theorem parse_u32_not_numeric (cs : List Char)
    (h : ¬ (strip_plus cs ≠ [] ∧ (strip_plus cs).all Char.isDigit)) :
    parse_u32 (String.mk cs) = none := by
  unfold parse_u32
  have hd : (String.mk cs).data = cs := rfl
  rw [hd, if_neg h]

/-- Claim C1: two IndexingTask values that agree on index identifier and source
identifier (whatever their pipeline instantiation identifiers or other
parameters) are equal and feed identical data to the hasher; two values that
differ in index identifier or in source identifier are never equal, regardless
of all other fields. -/
theorem indexingTask_identity (a b : IndexingTask) :
    (a.index_uid = b.index_uid → a.source_id = b.source_id →
      IndexingTask.task_eq a b = true ∧ a.hash_input = b.hash_input) ∧
    ((a.index_uid ≠ b.index_uid ∨ a.source_id ≠ b.source_id) →
      IndexingTask.task_eq a b = false) := by
  constructor
  · intro h1 h2
    constructor
    · simp [IndexingTask.task_eq, h1, h2]
    · simp [IndexingTask.hash_input, h1, h2]
  · intro h
    rcases h with h | h <;> simp [IndexingTask.task_eq, h]

/-- Witness for claim C1: two tasks differing only in pipeline instantiation
identifier and shard ids compare equal and hash identically; two tasks
differing in index identifier compare unequal. -/
theorem indexingTask_identity_witness :
    (IndexingTask.task_eq ⟨"idx", "src", some 1, []⟩ ⟨"idx", "src", some 2, [5]⟩ = true ∧
      IndexingTask.hash_input (⟨"idx", "src", some 1, []⟩ : IndexingTask) =
        IndexingTask.hash_input (⟨"idx", "src", some 2, [5]⟩ : IndexingTask)) ∧
    IndexingTask.task_eq ⟨"idx", "src", some 1, []⟩ ⟨"idx2", "src", some 1, []⟩ = false :=
  ⟨(indexingTask_identity ⟨"idx", "src", some 1, []⟩ ⟨"idx", "src", some 2, [5]⟩).1 rfl rfl,
    (indexingTask_identity ⟨"idx", "src", some 1, []⟩ ⟨"idx2", "src", some 1, []⟩).2
      (Or.inl (by decide))⟩

/-- Counterexample for claim C2: serializing concrete pipeline metrics puts the
CPU consumption under the cpu_millis key as the string 2500m, not as a numeric
value. -/
theorem pipelineMetrics_json_counterexample :
    (PipelineMetrics.serialize ⟨CpuCapacity.from_cpu_millis 2500, 10⟩).lookup "cpu_millis" =
        some (JsonValue.str "2500m") ∧
    ((PipelineMetrics.serialize ⟨CpuCapacity.from_cpu_millis 2500, 10⟩).lookup
        "cpu_millis").map JsonValue.is_num = some false := by
  decide

/-- Claim C2 as amended: the structured serialization of PipelineMetrics
carries the CPU consumption under the cpu_millis key as the canonical string
form (the milli-CPU count followed by the unit suffix m) together with the
numeric throughput field, and the display string is exactly the milli-CPU
count, the suffix m, a comma, the throughput, and MB/s. -/
theorem pipelineMetrics_serialization (m : PipelineMetrics) :
    m.serialize = [("cpu_millis", JsonValue.str (toString m.cpu_millis.cpu_millis ++ "m")),
      ("throughput_mb_per_sec", JsonValue.num m.throughput_mb_per_sec)] ∧
    m.display = m.cpu_millis.display ++ "," ++ toString m.throughput_mb_per_sec ++ "MB/s" ∧
    m.cpu_millis.display = toString m.cpu_millis.cpu_millis ++ "m" :=
  ⟨rfl, rfl, rfl⟩

/-- Claim C3: the mapping from messaging-layer outcomes to IndexingError
passes an application-level error reply through unchanged, maps the
not-delivered outcome to Unavailable with the delivery message, maps the
processing-failure outcome to Internal with the processing message, and is
exhaustive over the three outcomes of the messaging layer. -/
theorem askError_mapping (e : IndexingError) :
    IndexingError.from_ask_error (.errorReply e) = e ∧
    IndexingError.from_ask_error .messageNotDelivered =
      IndexingError.unavailable "request could not be delivered to actor" ∧
    IndexingError.from_ask_error .processMessageError =
      IndexingError.internal "an error occurred while processing the request" ∧
    ∀ a : AskError, (∃ e2, a = .errorReply e2) ∨
      a = .messageNotDelivered ∨ a = .processMessageError := by
  refine ⟨rfl, rfl, rfl, ?_⟩
  intro a
  cases a with
  | errorReply e2 => exact Or.inl ⟨e2, rfl⟩
  | messageNotDelivered => exact Or.inr (Or.inl rfl)
  | processMessageError => exact Or.inr (Or.inr rfl)

/-- Claim C4: the error-code mapping is total over IndexingError — Internal,
Timeout, Unavailable and Unimplemented map to their namesake codes, the
Metastore variant inherits exactly the wrapped metastore error's own code,
and every variant yields exactly one code. -/
theorem indexingError_code_total (msg : String) (e : MetastoreError) :
    IndexingError.error_code (.internal msg) = .internal ∧
    IndexingError.error_code (.timeout msg) = .timeout ∧
    IndexingError.error_code (.unavailable msg) = .unavailable ∧
    IndexingError.error_code (.unimplemented msg) = .unimplemented ∧
    IndexingError.error_code (.metastore e) = e.error_code ∧
    ∀ err : IndexingError, ∃! c : ServiceErrorCode, err.error_code = c :=
  ⟨rfl, rfl, rfl, rfl, rfl, fun err => ⟨err.error_code, rfl, fun _ hy => hy.symm⟩⟩

/-- Rounding to the nearest integer returns the lower integer when the value
is strictly below the midpoint. -/
theorem rndHalfEven_eq_of_lt (q : ℚ) (n : ℤ) (h1 : (n:ℚ) ≤ q) (h2 : q < n + 1/2) :
    rndHalfEven q = n := by
  have hfl : ⌊q⌋ = n := Int.floor_eq_iff.2 ⟨h1, by push_cast; linarith⟩
  unfold rndHalfEven
  rw [hfl, if_pos (by push_cast; linarith)]

/-- Rounding to the nearest integer returns the upper integer when the value
is strictly above the midpoint. -/
theorem rndHalfEven_eq_of_gt (q : ℚ) (n : ℤ) (h1 : (n:ℚ) + 1/2 < q) (h2 : q < n + 1) :
    rndHalfEven q = n + 1 := by
  have hfl : ⌊q⌋ = n := Int.floor_eq_iff.2 ⟨by linarith, by push_cast; linarith⟩
  unfold rndHalfEven
  rw [hfl, if_neg (by push_cast; linarith), if_pos (by push_cast; linarith)]

/-- Rounding to the nearest integer at an exact midpoint with even lower
integer returns that even integer. -/
theorem rndHalfEven_eq_of_tie (q : ℚ) (n : ℤ) (h1 : q = (n:ℚ) + 1/2) (h2 : n % 2 = 0) :
    rndHalfEven q = n := by
  have hfl : ⌊q⌋ = n := Int.floor_eq_iff.2 ⟨by rw [h1]; linarith, by rw [h1]; push_cast; linarith⟩
  unfold rndHalfEven
  rw [hfl, if_neg (by rw [h1]; push_cast; linarith), if_neg (by rw [h1]; push_cast; linarith),
    if_pos h2]

/-- Rounding an integer to the nearest integer is the identity. -/
theorem rndHalfEven_intCast (n : ℤ) : rndHalfEven (n : ℚ) = n :=
  rndHalfEven_eq_of_lt _ n (le_refl _) (by linarith)

/-- Rounding a natural number to the nearest integer is the identity. -/
theorem rndHalfEven_natCast (n : ℕ) : rndHalfEven (n : ℚ) = n := by
  have := rndHalfEven_intCast (n : ℤ)
  rw [Int.cast_natCast] at this
  exact this

/-- Round to nearest never exceeds the value by more than one half. -/
theorem rndHalfEven_le_add_half (q : ℚ) : (rndHalfEven q : ℚ) ≤ q + 1/2 := by
  have h1 : (⌊q⌋ : ℚ) ≤ q := Int.floor_le q
  have h2 : q < ⌊q⌋ + 1 := Int.lt_floor_add_one q
  unfold rndHalfEven
  split_ifs with ha hb hc
  · linarith
  · push_cast
    linarith
  · linarith
  · push_cast
    have := le_antisymm (not_lt.1 hb) (not_lt.1 ha)
    linarith

/-- Round to nearest preserves nonnegativity. -/
theorem rndHalfEven_nonneg (q : ℚ) (h : 0 ≤ q) : 0 ≤ rndHalfEven q := by
  have h1 : 0 ≤ ⌊q⌋ := Int.floor_nonneg.2 h
  unfold rndHalfEven
  split_ifs <;> omega

/-- Upper bound for the base-two logarithm from an upper bound on the value. -/
theorem ilog2q_le (q : ℚ) (j : ℤ) (hj : -1090 ≤ j) (hq0 : 0 < q) (hq : q < 2 ^ j) :
    ilog2q q ≤ j - 1 := by
  unfold ilog2q
  have hJ : ((j + 1100).toNat : ℤ) = j + 1100 := Int.toNat_of_nonneg (by omega)
  set J : ℕ := (j + 1100).toNat with hJdef
  have hlt : q * 2 ^ 1100 < ((2 ^ J : ℕ) : ℚ) := by
    have hstep : q * 2 ^ 1100 < 2 ^ j * 2 ^ 1100 :=
      mul_lt_mul_of_pos_right hq (by positivity)
    have hmerge : (2:ℚ) ^ j * 2 ^ 1100 = ((2 ^ J : ℕ) : ℚ) := by
      rw [show ((2:ℚ) ^ (1100:ℕ)) = (2:ℚ) ^ ((1100:ℕ):ℤ) from (zpow_natCast 2 1100).symm,
        ← zpow_add₀ (by norm_num : (2:ℚ) ≠ 0)]
      rw [show j + ((1100:ℕ):ℤ) = (J:ℤ) by omega]
      push_cast
      rw [zpow_natCast]
    rw [← hmerge]
    exact hstep
  have hfl : ⌊q * 2 ^ 1100⌋ < ((2 ^ J : ℕ) : ℤ) := Int.floor_lt.2 (by exact_mod_cast hlt)
  set x : ℕ := Int.toNat ⌊q * 2 ^ 1100⌋ with hx
  have hxlt : x < 2 ^ J := by
    rcases le_or_lt 0 (⌊q * 2 ^ 1100⌋) with hge | hlt2
    · have hcast : ((x : ℕ) : ℤ) = ⌊q * 2 ^ 1100⌋ := by
        rw [hx]
        exact Int.toNat_of_nonneg hge
      have hxi : ((x : ℕ) : ℤ) < ((2 ^ J : ℕ) : ℤ) := hcast.symm ▸ hfl
      exact_mod_cast hxi
    · have hx0 : x = 0 := by
        rw [hx]
        exact Int.toNat_of_nonpos hlt2.le
      rw [hx0]
      exact Nat.two_pow_pos J
  rcases Nat.eq_zero_or_pos x with h0 | h0
  · rw [h0]
    simp [Nat.log2]
    omega
  · have hlog := (Nat.log2_lt (by omega)).2 hxlt
    omega

/-- The base-two logarithm is exact on a bracketed value. -/
theorem ilog2q_eq (q : ℚ) (a : ℤ) (ha : -1090 ≤ a) (h1 : 2 ^ a ≤ q) (h2 : q < 2 ^ (a + 1)) :
    ilog2q q = a := by
  have hq0 : 0 < q := lt_of_lt_of_le (by positivity) h1
  have hub := ilog2q_le q (a + 1) (by omega) hq0 h2
  have hA : ((a + 1100).toNat : ℤ) = a + 1100 := Int.toNat_of_nonneg (by omega)
  set A : ℕ := (a + 1100).toNat with hAdef
  have hge : ((2 ^ A : ℕ) : ℚ) ≤ q * 2 ^ 1100 := by
    have hmerge : (2:ℚ) ^ a * 2 ^ 1100 = ((2 ^ A : ℕ) : ℚ) := by
      rw [show ((2:ℚ) ^ (1100:ℕ)) = (2:ℚ) ^ ((1100:ℕ):ℤ) from (zpow_natCast 2 1100).symm,
        ← zpow_add₀ (by norm_num : (2:ℚ) ≠ 0)]
      rw [show a + ((1100:ℕ):ℤ) = (A:ℤ) by omega]
      push_cast
      rw [zpow_natCast]
    rw [← hmerge]
    exact mul_le_mul_of_nonneg_right h1 (by positivity)
  have hfl : ((2 ^ A : ℕ) : ℤ) ≤ ⌊q * 2 ^ 1100⌋ := Int.le_floor.2 (by exact_mod_cast hge)
  unfold ilog2q at hub ⊢
  set x : ℕ := Int.toNat ⌊q * 2 ^ 1100⌋ with hx
  have hxge : 2 ^ A ≤ x := by omega
  have hx0 : x ≠ 0 := by
    have : 1 ≤ 2 ^ A := Nat.one_le_two_pow
    omega
  have hlow : A ≤ Nat.log2 x := (Nat.le_log2 hx0).2 hxge
  omega

/-- Rounding is the identity on every value of the floating-point grid. -/
theorem roundRat_natMul_zpow (p : ℕ) (emin : ℤ) (m : ℕ) (e : ℤ)
    (hm : m < 2 ^ p) (he : emin ≤ e) (hemin : -1074 ≤ emin) :
    roundRat p emin ((m : ℚ) * 2 ^ e) = (m : ℚ) * 2 ^ e := by
  rcases Nat.eq_zero_or_pos m with hm0 | hm0
  · subst hm0
    simp [roundRat]
  · have hmq : (0:ℚ) < m := by exact_mod_cast hm0
    have hq0 : 0 < (m:ℚ) * 2 ^ e := mul_pos hmq (by positivity)
    have hub : (m:ℚ) * 2 ^ e < 2 ^ ((p:ℤ) + e) := by
      rw [zpow_add₀ (by norm_num : (2:ℚ) ≠ 0)]
      apply mul_lt_mul_of_pos_right _ (by positivity)
      rw [show ((2:ℚ) ^ ((p:ℤ))) = (2:ℚ) ^ (p:ℕ) from zpow_natCast 2 p]
      exact_mod_cast hm
    have hle := ilog2q_le ((m:ℚ) * 2 ^ e) ((p:ℤ) + e) (by omega) hq0 hub
    have habs : |(m:ℚ) * 2 ^ e| = (m:ℚ) * 2 ^ e := abs_of_pos hq0
    set E : ℤ := max emin (ilog2q ((m:ℚ) * 2 ^ e) - ((p : ℤ) - 1)) with hE
    have hEle : E ≤ e := by
      rw [hE]
      exact max_le he (by omega)
    have hkZ : ((e - E).toNat : ℤ) = e - E := Int.toNat_of_nonneg (by omega)
    have hk : (m:ℚ) * 2 ^ e / 2 ^ E = ((m * 2 ^ (e - E).toNat : ℕ) : ℚ) := by
      push_cast
      rw [show ((2:ℚ) ^ ((e - E).toNat : ℕ)) = (2:ℚ) ^ (((e - E).toNat : ℕ):ℤ) from
        (zpow_natCast 2 _).symm, hkZ, mul_div_assoc,
        ← zpow_sub₀ (by norm_num : (2:ℚ) ≠ 0)]
    have hsplit : (2:ℚ) ^ (e - E) * 2 ^ E = 2 ^ e := by
      rw [← zpow_add₀ (by norm_num : (2:ℚ) ≠ 0)]
      congr 1
      ring
    unfold roundRat
    rw [if_neg hq0.ne', habs, ← hE, hk, rndHalfEven_natCast]
    push_cast
    rw [show ((2:ℚ) ^ ((e - E).toNat : ℕ)) = (2:ℚ) ^ (((e - E).toNat : ℕ):ℤ) from
      (zpow_natCast 2 _).symm, hkZ, mul_assoc, hsplit]

/-- Rounding evaluates through the canonical exponent on a bracketed value. -/
theorem roundRat_bracket (p : ℕ) (emin : ℤ) (q : ℚ) (E n : ℤ)
    (hE : emin ≤ E) (hEa : -1090 ≤ (p : ℤ) - 1 + E)
    (h1 : 2 ^ ((p : ℤ) - 1) * 2 ^ E ≤ q) (h2 : q < 2 ^ (p : ℤ) * 2 ^ E)
    (hrnd : rndHalfEven (q / 2 ^ E) = n) :
    roundRat p emin q = (n : ℚ) * 2 ^ E := by
  have hq0 : 0 < q := lt_of_lt_of_le (by positivity) h1
  have hilog : ilog2q |q| = (p : ℤ) - 1 + E := by
    rw [abs_of_pos hq0]
    apply ilog2q_eq _ _ hEa
    · rw [zpow_add₀ (by norm_num : (2:ℚ) ≠ 0)]
      exact h1
    · rw [show (p:ℤ) - 1 + E + 1 = (p:ℤ) + E by ring,
        zpow_add₀ (by norm_num : (2:ℚ) ≠ 0)]
      exact h2
  unfold roundRat
  rw [if_neg hq0.ne', hilog,
    show (p:ℤ) - 1 + E - ((p:ℤ) - 1) = E by ring, max_eq_right hE, hrnd]

/-- Rounding preserves nonnegativity. -/
theorem roundRat_nonneg (p : ℕ) (emin : ℤ) (q : ℚ) (h : 0 ≤ q) : 0 ≤ roundRat p emin q := by
  unfold roundRat
  split_ifs with h0
  · exact le_refl 0
  · have hrnd : 0 ≤ rndHalfEven (q / 2 ^ max emin (ilog2q |q| - ((p:ℤ) - 1))) :=
      rndHalfEven_nonneg _ (div_nonneg h (by positivity))
    exact mul_nonneg (by exact_mod_cast hrnd) (by positivity)

/-- A rounded nonnegative value is at most twice the value. -/
theorem roundRat_le_two_mul (p : ℕ) (emin : ℤ) (q : ℚ) (h : 0 ≤ q) :
    roundRat p emin q ≤ 2 * q := by
  unfold roundRat
  split_ifs with h0
  · linarith
  · set E : ℤ := max emin (ilog2q |q| - ((p:ℤ) - 1)) with hE
    set s : ℚ := q / 2 ^ E with hs
    have hEpos : (0:ℚ) < 2 ^ E := by positivity
    have hsq : s * 2 ^ E = q := by
      rw [hs]
      field_simp
    have hup : (rndHalfEven s : ℚ) ≤ s + 1/2 := rndHalfEven_le_add_half s
    rcases le_or_lt (rndHalfEven s : ℚ) 0 with hn | hn
    · have : (rndHalfEven s : ℚ) * 2 ^ E ≤ 0 := mul_nonpos_of_nonpos_of_nonneg hn hEpos.le
      linarith
    · have hn0 : (0:ℤ) < rndHalfEven s := by exact_mod_cast hn
      have hn1 : (1:ℤ) ≤ rndHalfEven s := by omega
      have hn1q : (1:ℚ) ≤ (rndHalfEven s : ℚ) := by exact_mod_cast hn1
      have hs2 : 1/2 ≤ s := by linarith
      have hlin : (rndHalfEven s : ℚ) ≤ 2 * s := by linarith
      calc (rndHalfEven s : ℚ) * 2 ^ E ≤ 2 * s * 2 ^ E :=
            mul_le_mul_of_nonneg_right hlin hEpos.le
        _ = 2 * q := by rw [mul_assoc, hsq]

/-- f32 rounding is the identity on grid values with a 24-bit significand. -/
theorem roundF32_dyadic (m : ℕ) (e : ℤ) (hm : m < 2 ^ 24) (he : -149 ≤ e) :
    roundF32 ((m : ℚ) * 2 ^ e) = (m : ℚ) * 2 ^ e :=
  roundRat_natMul_zpow 24 (-149) m e hm he (by norm_num)

/-- f64 rounding is the identity on grid values with a 53-bit significand. -/
theorem roundF64_dyadic (m : ℕ) (e : ℤ) (hm : m < 2 ^ 53) (he : -1074 ≤ e) :
    roundF64 ((m : ℚ) * 2 ^ e) = (m : ℚ) * 2 ^ e :=
  roundRat_natMul_zpow 53 (-1074) m e hm he (by norm_num)

/-- f32 rounding is the identity on natural numbers up to 2 to the 24. -/
theorem roundF32_natCast (n : ℕ) (h : n ≤ 2 ^ 24) : roundF32 (n : ℚ) = n := by
  rcases lt_or_eq_of_le h with h' | h'
  · have := roundF32_dyadic n 0 h' (by norm_num)
    simpa using this
  · rw [h']
    rw [show ((2 ^ 24 : ℕ) : ℚ) = ((8388608 : ℕ) : ℚ) * 2 ^ (1:ℤ) by push_cast; norm_num]
    exact roundF32_dyadic 8388608 1 (by norm_num) (by norm_num)

/-- f32 rounding is the identity on halves of naturals up to 2 to the 24. -/
theorem roundF32_half (n : ℕ) (h : n ≤ 2 ^ 24) : roundF32 ((n:ℚ) / 2) = (n:ℚ) / 2 := by
  rcases lt_or_eq_of_le h with h' | h'
  · have := roundF32_dyadic n (-1) h' (by norm_num)
    rw [show ((2:ℚ) ^ (-1:ℤ)) = 1/2 by norm_num] at this
    rw [show ((n:ℚ) / 2) = (n:ℚ) * (1/2) by ring]
    exact this
  · rw [h']
    rw [show ((2 ^ 24 : ℕ) : ℚ) / 2 = ((8388608 : ℕ) : ℚ) by push_cast; norm_num]
    exact roundF32_natCast 8388608 (by norm_num)

/-- The saturating cast is the identity on in-range natural numbers. -/
theorem rust_cast_natCast (n : ℕ) (h : n < 2 ^ 32) : rust_cast_to_u32 (n : ℚ) = n := by
  unfold rust_cast_to_u32
  rw [if_neg (not_lt.2 (Nat.cast_nonneg n)), Int.floor_natCast]
  omega

/-- The saturating cast truncates toward zero on nonnegative in-range values. -/
theorem rust_cast_eq_floor (q : ℚ) (h0 : 0 ≤ q) (h1 : q < 2 ^ 32) :
    rust_cast_to_u32 q = Int.toNat ⌊q⌋ := by
  unfold rust_cast_to_u32
  rw [if_neg (not_lt.2 h0)]
  have : ⌊q⌋ < 2 ^ 32 := Int.floor_lt.2 (by exact_mod_cast h1)
  omega

/-- The saturating cast halves in-range naturals with truncation toward zero. -/
theorem rust_cast_half (n : ℕ) (h : n < 2 ^ 32) : rust_cast_to_u32 ((n:ℚ) / 2) = n / 2 := by
  have hlt : (n:ℚ) / 2 < 2 ^ 32 := by
    have : (n:ℚ) < 2 ^ 32 := by exact_mod_cast h
    linarith
  rw [rust_cast_eq_floor _ (by positivity) hlt,
    show ((2:ℚ)) = ((2:ℕ):ℚ) by norm_num, Int.floor_toNat, Nat.floor_div_eq_div]

/-- Counterexample for claim C5: the bare JSON number 4194304.5 (exactly
representable in f32 and f64) deserializes to 4194304512 milli-CPUs, because
the scaling by 1000 happens in f32 and rounds the product to the nearest f32
before the truncating cast; exact scaling followed by truncation toward zero
would give 4194304500. -/
theorem cpuCapacity_serde_counterexample :
    CpuCapacity.deserialize (.num ((8388609 : ℚ) / 2)) =
      .ok (CpuCapacity.from_cpu_millis 4194304512) ∧
    Int.toNat ⌊(8388609 : ℚ) / 2 * 1000⌋ = 4194304500 ∧
    (4194304512 : ℕ) ≠ 4194304500 := by
  refine ⟨?_, ?_, by norm_num⟩
  · have hq : (8388609 : ℚ) / 2 = ((8388609:ℕ):ℚ) * 2 ^ (-1:ℤ) := by
      push_cast
      norm_num
    have h64 : roundF64 (((8388609:ℕ):ℚ) * 2 ^ (-1:ℤ)) = ((8388609:ℕ):ℚ) * 2 ^ (-1:ℤ) :=
      roundF64_dyadic _ _ (by norm_num) (by norm_num)
    have h32 : roundF32 (((8388609:ℕ):ℚ) * 2 ^ (-1:ℤ)) = ((8388609:ℕ):ℚ) * 2 ^ (-1:ℤ) :=
      roundF32_dyadic _ _ (by norm_num) (by norm_num)
    have hprod : ((8388609:ℕ):ℚ) * 2 ^ (-1:ℤ) * 1000 = 4194304500 := by
      push_cast
      norm_num
    have hrnd : rndHalfEven ((4194304500 : ℚ) / 2 ^ (8:ℤ)) = 16384002 := by
      rw [show (4194304500 : ℚ) / 2 ^ (8:ℤ) = 1048576125/64 by norm_num]
      have := rndHalfEven_eq_of_gt (1048576125/64) 16384001 (by norm_num) (by norm_num)
      omega
    have hr : roundF32 (4194304500 : ℚ) = ((16384002:ℤ) : ℚ) * 2 ^ (8:ℤ) :=
      roundRat_bracket 24 (-149) _ 8 16384002 (by norm_num) (by norm_num)
        (by norm_num) (by norm_num) hrnd
    simp only [CpuCapacity.deserialize, CpuCapacity.try_from, f32_mul]
    rw [hq, h64, h32, hprod, hr,
      show ((16384002:ℤ) : ℚ) * 2 ^ (8:ℤ) = ((4194304512:ℕ):ℚ) by push_cast; norm_num,
      rust_cast_natCast _ (by norm_num)]
  · rw [show (8388609 : ℚ) / 2 * 1000 = ((4194304500:ℕ):ℚ) by push_cast; norm_num,
      Int.floor_natCast]
    simp

/-- Claim C5 as amended: deserializing the JSON number 1.2 and the JSON string
1200m both yield 1200 milli-CPUs, and serializing 2500 milli-CPUs yields
exactly the string 2500m regardless of input form; a bare number is
interpreted as whole CPUs, scaled by 1000 in f32 arithmetic (the conversions
and the product round to nearest), and the scaled f32 value is then truncated
toward zero by the saturating cast — the truncation applies to the f32
product, not to the exact product. -/
theorem cpuCapacity_serde (m : ℕ) (e : ℤ) :
    CpuCapacity.deserialize (.num (6/5)) = .ok (CpuCapacity.from_cpu_millis 1200) ∧
    CpuCapacity.deserialize (.str "1200m") = .ok (CpuCapacity.from_cpu_millis 1200) ∧
    CpuCapacity.serialize (CpuCapacity.from_cpu_millis 2500) = .str "2500m" ∧
    (m < 2 ^ 24 → -149 ≤ e → e ≤ 0 → m * 2000 < 2 ^ 32 →
      CpuCapacity.deserialize (.num ((m : ℚ) * 2 ^ e)) =
        .ok (CpuCapacity.from_cpu_millis
          (Int.toNat ⌊f32_mul ((m : ℚ) * 2 ^ e) 1000⌋))) := by
  refine ⟨?_, by decide, by decide, ?_⟩
  · have h64 : roundF64 ((6:ℚ)/5) = ((5404319552844595:ℤ) : ℚ) * 2 ^ (-52:ℤ) := by
      apply roundRat_bracket 53 (-1074) _ (-52) 5404319552844595 (by norm_num) (by norm_num)
        (by norm_num) (by norm_num)
      rw [show ((6:ℚ)/5) / 2 ^ (-52:ℤ) = 27021597764222976/5 by norm_num]
      exact rndHalfEven_eq_of_lt _ 5404319552844595 (by norm_num) (by norm_num)
    have h32 : roundF32 (((5404319552844595:ℤ) : ℚ) * 2 ^ (-52:ℤ)) =
        ((10066330:ℤ) : ℚ) * 2 ^ (-23:ℤ) := by
      apply roundRat_bracket 24 (-149) _ (-23) 10066330 (by norm_num) (by norm_num)
        (by push_cast; norm_num) (by push_cast; norm_num)
      rw [show (((5404319552844595:ℤ) : ℚ) * 2 ^ (-52:ℤ)) / 2 ^ (-23:ℤ) =
        5404319552844595/536870912 by push_cast; norm_num]
      have := rndHalfEven_eq_of_gt (5404319552844595/536870912) 10066329
        (by norm_num) (by norm_num)
      omega
    have hmul : f32_mul (((10066330:ℤ) : ℚ) * 2 ^ (-23:ℤ)) 1000 = ((1200:ℕ):ℚ) := by
      unfold f32_mul
      have hr : roundF32 ((629145625:ℚ)/524288) = ((9830400:ℤ) : ℚ) * 2 ^ (-13:ℤ) := by
        apply roundRat_bracket 24 (-149) _ (-13) 9830400 (by norm_num) (by norm_num)
          (by norm_num) (by norm_num)
        rw [show ((629145625:ℚ)/524288) / 2 ^ (-13:ℤ) = 629145625/64 by norm_num]
        exact rndHalfEven_eq_of_lt _ 9830400 (by norm_num) (by norm_num)
      rw [show (((10066330:ℤ) : ℚ) * 2 ^ (-23:ℤ)) * 1000 = (629145625:ℚ)/524288 by
        push_cast; norm_num, hr]
      push_cast
      norm_num
    simp only [CpuCapacity.deserialize, CpuCapacity.try_from]
    rw [h64, h32, hmul, rust_cast_natCast 1200 (by norm_num)]
  · intro h1 h2 h3 h4
    have h64 : roundF64 ((m:ℚ) * 2 ^ e) = (m:ℚ) * 2 ^ e :=
      roundF64_dyadic m e (by omega) (by omega)
    have h32 : roundF32 ((m:ℚ) * 2 ^ e) = (m:ℚ) * 2 ^ e :=
      roundF32_dyadic m e h1 h2
    simp only [CpuCapacity.deserialize, CpuCapacity.try_from]
    rw [h64, h32]
    congr 1
    have hq0 : (0:ℚ) ≤ (m:ℚ) * 2 ^ e * 1000 := by positivity
    have hlt : f32_mul ((m:ℚ) * 2 ^ e) 1000 < 2 ^ 32 := by
      have hb : roundF32 ((m:ℚ) * 2 ^ e * 1000) ≤ 2 * ((m:ℚ) * 2 ^ e * 1000) :=
        roundRat_le_two_mul _ _ _ hq0
      have h2e : (2:ℚ) ^ e ≤ 1 := zpow_le_one_of_nonpos₀ (by norm_num) h3
      have hm1000 : (0:ℚ) ≤ (m:ℚ) * 1000 := by positivity
      have hle : (m:ℚ) * 2 ^ e * 1000 ≤ (m:ℚ) * 1000 := by
        have := mul_le_mul_of_nonneg_left h2e hm1000
        nlinarith
      have hcast : (m:ℚ) * 2000 < 2 ^ 32 := by exact_mod_cast h4
      unfold f32_mul
      nlinarith
    rw [rust_cast_eq_floor (f32_mul ((m:ℚ) * 2 ^ e) 1000)
      (roundRat_nonneg 24 (-149) ((m:ℚ) * 2 ^ e * 1000) hq0) hlt]

/-- Witness for claim C5: the general bare-number clause applied to the
representable value 1228.5 (2457 over 2). -/
theorem cpuCapacity_serde_witness :
    2457 < 2 ^ 24 ∧ (-149:ℤ) ≤ -1 ∧ (-1:ℤ) ≤ 0 ∧ 2457 * 2000 < 2 ^ 32 ∧
    CpuCapacity.deserialize (.num (((2457:ℕ) : ℚ) * 2 ^ (-1:ℤ))) =
      .ok (CpuCapacity.from_cpu_millis
        (Int.toNat ⌊f32_mul (((2457:ℕ) : ℚ) * 2 ^ (-1:ℤ)) 1000⌋)) :=
  ⟨by decide, by decide, by decide, by decide,
    (cpuCapacity_serde 2457 (-1)).2.2.2 (by decide) (by decide) (by decide) (by decide)⟩

/-- Counterexample for claim C8: multiplying the capacity 16777217 (one above
2 to the 24) by the scale 1.0 yields 16777216, not the exact product 16777217
truncated toward zero: the u32-to-f32 conversion already rounds the count to
the nearest representable value. -/
theorem cpuCapacity_mul_f32_counterexample :
    CpuCapacity.mul_f32 (CpuCapacity.from_cpu_millis 16777217) 1 =
      CpuCapacity.from_cpu_millis 16777216 ∧
    Int.toNat ⌊(16777217 : ℚ) * 1⌋ = 16777217 ∧
    (16777216 : ℕ) ≠ 16777217 := by
  refine ⟨?_, ?_, by norm_num⟩
  · have hrnd : rndHalfEven ((16777217:ℚ) / 2 ^ (1:ℤ)) = 8388608 := by
      rw [show (16777217:ℚ) / 2 ^ (1:ℤ) = 16777217/2 by norm_num]
      exact rndHalfEven_eq_of_tie _ 8388608 (by norm_num) (by decide)
    have hconv : roundF32 (((16777217:ℕ)):ℚ) = ((8388608:ℤ) : ℚ) * 2 ^ (1:ℤ) := by
      rw [show ((((16777217:ℕ)):ℚ)) = (16777217:ℚ) by push_cast; ring]
      exact roundRat_bracket 24 (-149) _ 1 8388608 (by norm_num) (by norm_num)
        (by norm_num) (by norm_num) hrnd
    have hid : roundF32 (((8388608:ℤ) : ℚ) * 2 ^ (1:ℤ) * 1) =
        ((16777216:ℕ) : ℚ) := by
      rw [show ((8388608:ℤ) : ℚ) * 2 ^ (1:ℤ) * 1 = ((16777216:ℕ) : ℚ) by push_cast; norm_num]
      exact roundF32_natCast 16777216 (by norm_num)
    unfold CpuCapacity.mul_f32 u32_to_f32 f32_mul
    rw [show (CpuCapacity.from_cpu_millis 16777217).val = (16777217:ℕ) from rfl,
      hconv, hid, rust_cast_natCast 16777216 (by norm_num)]
  · rw [show (16777217 : ℚ) * 1 = ((16777217:ℕ):ℚ) by push_cast; ring, Int.floor_natCast]
    simp

/-- Claim C8 as amended: multiplication by a nonnegative f32 scale converts
the count to f32, multiplies in f32 (each rounding to nearest), and truncates
the resulting product toward zero with saturation; the exact truncation
formula of the claim holds whenever no rounding intervenes — in particular
for every count c at most 2 to the 24 and every integer scale k or
half-integer scale k over 2 whose exact product is at most 2 to the 24, the
result is exactly the product truncated toward zero (so for the half scales
the truncation toward zero is visible and never a round to nearest). -/
theorem cpuCapacity_mul_f32_spec (c k : ℕ) :
    (c ≤ 2 ^ 24 → k ≤ 2 ^ 24 → c * k ≤ 2 ^ 24 →
      CpuCapacity.mul_f32 (CpuCapacity.from_cpu_millis c) ((k:ℕ) : ℚ) =
        CpuCapacity.from_cpu_millis (c * k)) ∧
    (c ≤ 2 ^ 24 → k ≤ 2 ^ 24 → c * k ≤ 2 ^ 24 →
      CpuCapacity.mul_f32 (CpuCapacity.from_cpu_millis c) (((k:ℕ) : ℚ) / 2) =
        CpuCapacity.from_cpu_millis (c * k / 2)) := by
  have hval : (CpuCapacity.from_cpu_millis c).val = c := rfl
  constructor
  · intro h1 h2 h3
    unfold CpuCapacity.mul_f32 u32_to_f32 f32_mul
    rw [hval, roundF32_natCast c h1,
      show (c:ℚ) * ((k:ℕ) : ℚ) = ((c * k : ℕ) : ℚ) by push_cast; ring,
      roundF32_natCast (c * k) h3, rust_cast_natCast (c * k) (by omega)]
  · intro h1 h2 h3
    unfold CpuCapacity.mul_f32 u32_to_f32 f32_mul
    rw [hval, roundF32_natCast c h1,
      show (c:ℚ) * (((k:ℕ) : ℚ) / 2) = ((c * k : ℕ) : ℚ) / 2 by push_cast; ring,
      roundF32_half (c * k) h3, rust_cast_half (c * k) (by omega)]

/-- Witness for claim C8: 16777 milli-CPUs times the integer scale 1000 gives
exactly 16777000; 5 milli-CPUs times the scale 1.5 gives 7 (15 halved,
truncated toward zero). -/
theorem cpuCapacity_mul_f32_witness :
    CpuCapacity.mul_f32 (CpuCapacity.from_cpu_millis 16777) (((1000:ℕ)) : ℚ) =
      CpuCapacity.from_cpu_millis (16777 * 1000) ∧
    CpuCapacity.mul_f32 (CpuCapacity.from_cpu_millis 5) ((((3:ℕ)) : ℚ) / 2) =
      CpuCapacity.from_cpu_millis (5 * 3 / 2) :=
  ⟨(cpuCapacity_mul_f32_spec 16777 1000).1 (by decide) (by decide) (by decide),
    (cpuCapacity_mul_f32_spec 5 3).2 (by decide) (by decide) (by decide)⟩

/-- Claim C6: textual parsing succeeds on a digit string followed by the unit
suffix m (in particular 2000m parses to 2000 milli-CPUs), fails with the
missing-suffix message (naming the malformed input) on every string that does
not end in m, and fails with the generic message on every suffixed string
whose remainder is not a nonnegative integer. -/
theorem cpuCapacity_from_str_spec (cs : List Char) (s : String) :
    CpuCapacity.from_str "2000m" = .ok (CpuCapacity.from_cpu_millis 2000) ∧
    (cs ≠ [] → cs.all Char.isDigit → digitsVal cs < 2 ^ 32 →
      CpuCapacity.from_str (String.mk (cs ++ ['m'])) =
        .ok (CpuCapacity.from_cpu_millis (digitsVal cs))) ∧
    (s.data.getLast? ≠ some 'm' →
      CpuCapacity.from_str s =
        .error ("invalid cpu capacity: `" ++ s ++ "`. String format expects a trailing 'm'.")) ∧
    (¬ (strip_plus cs ≠ [] ∧ (strip_plus cs).all Char.isDigit) →
      CpuCapacity.from_str (String.mk (cs ++ ['m'])) =
        .error ("invalid cpu capacity: `" ++ String.mk (cs ++ ['m']) ++ "`.")) := by
  refine ⟨by decide, ?_, ?_, ?_⟩
  · intro h1 h2 h3
    simp only [CpuCapacity.from_str, strip_suffix_m_concat, parse_u32_digits cs h1 h2 h3]
  · intro h
    simp only [CpuCapacity.from_str, strip_suffix_m_of_no_m s h]
  · intro h
    simp only [CpuCapacity.from_str, strip_suffix_m_concat, parse_u32_not_numeric cs h]

/-- Witness for claim C6: 2000m parses successfully; 2.5 fails with the
missing-suffix message; 2.5m fails with the generic message. -/
theorem cpuCapacity_from_str_witness :
    CpuCapacity.from_str (String.mk (['2','0','0','0'] ++ ['m'])) =
      .ok (CpuCapacity.from_cpu_millis (digitsVal ['2','0','0','0'])) ∧
    CpuCapacity.from_str "2.5" =
      .error ("invalid cpu capacity: `" ++ "2.5" ++ "`. String format expects a trailing 'm'.") ∧
    CpuCapacity.from_str (String.mk (['2','.','5'] ++ ['m'])) =
      .error ("invalid cpu capacity: `" ++ String.mk (['2','.','5'] ++ ['m']) ++ "`.") :=
  ⟨(cpuCapacity_from_str_spec ['2','0','0','0'] "2.5").2.1 (by decide) (by decide) (by decide),
    (cpuCapacity_from_str_spec ['2','0','0','0'] "2.5").2.2.1 (by decide),
    (cpuCapacity_from_str_spec ['2','.','5'] "x").2.2.2 (by decide)⟩

/-- Claim C7: the display of an IndexingPipelineId depends only on its index
identifier and source identifier (node and instantiation are ignored), and
both IndexingPipelineId and IndexingTask display as the index identifier, a
colon, and the source identifier. -/
theorem pipelineId_display_spec (p q : IndexingPipelineId) (t : IndexingTask) :
    (p.index_uid = q.index_uid → p.source_id = q.source_id → p.display = q.display) ∧
    p.display = p.index_uid ++ ":" ++ p.source_id ∧
    t.display = t.index_uid ++ ":" ++ t.source_id := by
  refine ⟨?_, rfl, rfl⟩
  intro h1 h2
  simp [IndexingPipelineId.display, h1, h2]

/-- Witness for claim C7: two pipeline ids sharing index and source but with
different nodes and instantiation identifiers display identically. -/
theorem pipelineId_display_witness :
    IndexingPipelineId.display ⟨"node1", "idx", "src", 1⟩ =
      IndexingPipelineId.display ⟨"node2", "idx", "src", 2⟩ :=
  (pipelineId_display_spec ⟨"node1", "idx", "src", 1⟩ ⟨"node2", "idx", "src", 2⟩
    ⟨"idx", "src", some 1, []⟩).1 rfl rfl

/-- Claim C9: when the pipeline instantiation identifier field is present with
value p, the accessor returns p; when the field is absent, the accessor takes
the fail-fast branch, so under the presence precondition the failure branch is
unreachable. -/
theorem pipeline_uid_accessor_spec (t : IndexingTask) (p : PipelineUid) :
    (t.pipeline_uid = some p → t.get_pipeline_uid = .ok p) ∧
    (t.pipeline_uid = none →
      t.get_pipeline_uid = .error "pipeline_uid should be a required field") := by
  constructor
  · intro h
    unfold IndexingTask.get_pipeline_uid
    rw [h]
  · intro h
    unfold IndexingTask.get_pipeline_uid
    rw [h]

/-- Witness for claim C9: a task carrying instantiation identifier 7 yields 7;
a task without one takes the fail-fast branch. -/
theorem pipeline_uid_accessor_witness :
    IndexingTask.get_pipeline_uid ⟨"idx", "src", some 7, []⟩ = .ok 7 ∧
    IndexingTask.get_pipeline_uid ⟨"idx", "src", none, []⟩ =
      .error "pipeline_uid should be a required field" :=
  ⟨(pipeline_uid_accessor_spec ⟨"idx", "src", some 7, []⟩ 7).1 rfl,
    (pipeline_uid_accessor_spec ⟨"idx", "src", none, []⟩ 7).2 rfl⟩

/-- Claim C10: the order on CpuCapacity is monotone in the milli-CPU count —
less-or-equal holds exactly when the milli-CPU counts are so ordered, and
equality holds exactly when the milli-CPU counts are equal. -/
theorem cpuCapacity_order (a b : CpuCapacity) :
    (CpuCapacity.le a b = true ↔ a.cpu_millis ≤ b.cpu_millis) ∧
    (a = b ↔ a.cpu_millis = b.cpu_millis) := by
  constructor
  · unfold CpuCapacity.le CpuCapacity.cmp CpuCapacity.cpu_millis
    constructor
    · intro h
      by_contra hc
      push_neg at hc
      rw [Nat.compare_eq_gt.2 hc] at h
      exact Bool.false_ne_true h
    · intro h
      have hne : compare a.val b.val ≠ .gt := fun hg =>
        absurd (Nat.compare_eq_gt.1 hg) (not_lt.2 h)
      cases hcmp : compare a.val b.val <;> simp_all
  · constructor
    · intro h
      rw [h]
    · intro h
      cases a
      cases b
      simp_all [CpuCapacity.cpu_millis]

/-- Witness for claim C10: 3 milli-CPUs compare less-or-equal to 5. -/
theorem cpuCapacity_order_witness :
    CpuCapacity.le (CpuCapacity.from_cpu_millis 3) (CpuCapacity.from_cpu_millis 5) = true :=
  (cpuCapacity_order (CpuCapacity.from_cpu_millis 3) (CpuCapacity.from_cpu_millis 5)).1.2
    (by decide)

end Quickwit
